import Mathlib

/-!
Verification of the backtest execution and result-aggregation pipeline
(`run_backtests.py`, `backtest_ibit.py`).

The Python code is embedded shallowly:
* pandas trade/signal frames become lists of records with the fields the
  pipeline reads (`outcome_R`, `type`);
* Python floats become exact rationals;
* Python dicts (which preserve insertion order) become association lists;
* exceptions become `Except String`; a `try/except Exception` becomes a
  `match` on the `Except` value;
* the pluggable strategy modules (`ob_refined_strategy`,
  `fractal_refined_strategy`, `fractal_ob_strategy`) are not part of this
  repository, so a strategy evaluation outcome is an explicit parameter
  (`Except String StratOut`), as is the outcome of each file write.
-/

/-- A trade record: the fields of a trade row that the pipeline reads. -/
structure Trade where
  entry_date : String
  exit_date : String
  entry_price : ℚ
  exit_price : ℚ
  outcome_R : ℚ
  type : String
deriving Repr, DecidableEq

/-- A signal record: `log_signals` reads only the `type` column. -/
structure Signal where
  type : String
deriving Repr, DecidableEq

/-- The summary block produced by a strategy's summarize step. -/
structure Summary where
  num_trades : ℕ
  avg_outcome_R : ℚ
  win_rate_pos_R : ℚ
  bullish_trades : ℕ
  bearish_trades : ℕ
deriving Repr, DecidableEq

/-- A backtest result dict.  The success variant populates `trades` and
`equity_curve` and leaves `error` absent; the error variant populates
`error` and leaves `trades`/`equity_curve` absent (`Option` models key
presence in the Python dict). -/
structure BacktestResult where
  symbol : String
  strategy : String
  summary : Summary
  error : Option String
  trades : Option (List Trade)
  equity_curve : Option (List ℚ)
deriving Repr, DecidableEq

/-- Running cumulative sum, as `pandas.Series.cumsum`: entry `i` is the sum
of entries `0..i` of the input. -/
def cumsum (acc : ℚ) : List ℚ → List ℚ
  | [] => []
  | x :: xs => (acc + x) :: cumsum (acc + x) xs

/-- `format_strategy_results` (run_backtests.py lines 15-34): shapes the
success variant; `equity_curve` is the cumulative sum of the trades'
`outcome_R` column in trade order (empty list for no trades). -/
def format_strategy_results (symbol_name : String) (summary : Summary)
    (trades : List Trade) (strategy_name : String) : BacktestResult :=
  { symbol := symbol_name
    strategy := strategy_name
    summary := summary
    error := none
    trades := some trades
    equity_curve := some (cumsum 0 (trades.map (fun t => t.outcome_R))) }

/-- The zeroed summary attached to the error variant. -/
def zeroedSummary : Summary :=
  { num_trades := 0
    avg_outcome_R := 0
    win_rate_pos_R := 0
    bullish_trades := 0
    bearish_trades := 0 }

/-- `handle_strategy_error` (run_backtests.py lines 36-49): shapes the error
variant with a zeroed summary. -/
def handle_strategy_error (symbol_name strategy_name : String)
    (error : String) : BacktestResult :=
  { symbol := symbol_name
    strategy := strategy_name
    summary := zeroedSummary
    error := some error
    trades := none
    equity_curve := none }

/-- `simple_backtest` (backtest_ibit.py lines 8-36): buy-and-hold backtest
over the close column.  An empty frame yields the bare error dict
(`Except.error`); otherwise one Bullish trade from first to last close,
and a hardcoded two-point equity curve `[0, total_return/100]`. -/
def simple_backtest (closes : List ℚ) (dates : List String)
    (symbol : String) : Except String BacktestResult :=
  if closes.isEmpty then .error "No data available"
  else
    let start_price := closes.headD 0
    let end_price := closes.getLastD 0
    let total_return := (end_price - start_price) / start_price * 100
    .ok
      { symbol := symbol
        strategy := "buy_hold"
        summary :=
          { num_trades := 1
            avg_outcome_R := total_return / 100
            win_rate_pos_R := if total_return > 0 then 1 else 0
            bullish_trades := 1
            bearish_trades := 0 }
        error := none
        trades := some
          [{ entry_date := dates.headD ""
             exit_date := dates.getLastD ""
             entry_price := start_price
             exit_price := end_price
             outcome_R := total_return / 100
             type := "Bullish" }]
        equity_curve := some [0, total_return / 100] }

/-- The dict returned by `simple_backtest` on the non-empty branch:
naming the success record of `simple_backtest` for reuse in statements. -/
def simple_backtest_ok (closes : List ℚ) (dates : List String)
    (symbol : String) : BacktestResult :=
  let start_price := closes.headD 0
  let end_price := closes.getLastD 0
  let total_return := (end_price - start_price) / start_price * 100
  { symbol := symbol
    strategy := "buy_hold"
    summary :=
      { num_trades := 1
        avg_outcome_R := total_return / 100
        win_rate_pos_R := if total_return > 0 then 1 else 0
        bullish_trades := 1
        bearish_trades := 0 }
    error := none
    trades := some
      [{ entry_date := dates.headD ""
         exit_date := dates.getLastD ""
         entry_price := start_price
         exit_price := end_price
         outcome_R := total_return / 100
         type := "Bullish" }]
    equity_curve := some [0, total_return / 100] }

/-- The raw output of a strategy evaluation: an optional signal frame
(the ob strategy produces none), a trade frame and a summary. -/
structure StratOut where
  signals : Option (List Signal)
  trades : List Trade
  summary : Summary
deriving Repr, DecidableEq

/-- The strategy dispatch of `run_strategy_backtest` (run_backtests.py
lines 54-84): the three known names run their module (whose outcome,
including any exception it raises, is the parameter `evalOutcome`, the
modules being outside this repository); the ob branch sets
`signals = None`; an unknown name raises `ValueError`. -/
def strat_dispatch (strategy_name : String)
    (evalOutcome : Except String StratOut) : Except String StratOut :=
  if strategy_name = "ob_refined_strategy" then
    evalOutcome.map (fun out => { out with signals := none })
  else if strategy_name = "fractal_refined_strategy"
      ∨ strategy_name = "fractal_ob_strategy" then
    evalOutcome
  else .error ("Unknown strategy: " ++ strategy_name)

/-- The body of the `try` block of `run_strategy_backtest`
(run_backtests.py lines 52-90): dispatch, then — when signals were
produced and are non-empty — the `log_signals` side effect (whose file
read-merge-write outcome is the parameter `logOutcome`), then the
result shaping.  An exception anywhere in the body aborts it. -/
def try_strategy_body (symbol_name strategy_name : String)
    (evalOutcome : Except String StratOut)
    (logOutcome : Except String Unit) : Except String BacktestResult :=
  match strat_dispatch strategy_name evalOutcome with
  | .error e => .error e
  | .ok out =>
    let afterLog : Except String Unit :=
      match out.signals with
      | some sigs => if sigs.isEmpty then .ok () else logOutcome
      | none => .ok ()
    match afterLog with
    | .error e => .error e
    | .ok _ =>
      .ok (format_strategy_results symbol_name out.summary out.trades
        strategy_name)

/-- `run_strategy_backtest` with explicit exception flow (run_backtests.py
lines 51-93): the `except Exception` clause converts every exception of
the body into the error variant, so the call as a whole is always `.ok`. -/
def run_strategy_backtestE (symbol_name strategy_name : String)
    (evalOutcome : Except String StratOut)
    (logOutcome : Except String Unit) : Except String BacktestResult :=
  match try_strategy_body symbol_name strategy_name evalOutcome logOutcome with
  | .ok result => .ok result
  | .error e => .ok (handle_strategy_error symbol_name strategy_name e)

/-- `run_strategy_backtest` as the caller sees it: the returned dict. -/
def run_strategy_backtest (symbol_name strategy_name : String)
    (evalOutcome : Except String StratOut)
    (logOutcome : Except String Unit) : BacktestResult :=
  match try_strategy_body symbol_name strategy_name evalOutcome logOutcome with
  | .ok result => result
  | .error e => handle_strategy_error symbol_name strategy_name e

/-- Per-symbol counters of a signal log entry. -/
structure SymCounts where
  total : ℕ
  bullish : ℕ
  bearish : ℕ
deriving Repr, DecidableEq

/-- A per-strategy signal log (the JSON dict persisted at
`cache/{strategy}_signal_log.json`).  `by_symbol` is an insertion-ordered
association list, as a Python dict. -/
structure SignalLog where
  total_signals : ℕ
  by_symbol : List (String × SymCounts)
  by_type_bullish : ℕ
  by_type_bearish : ℕ
deriving Repr, DecidableEq

/-- The fresh log created when no log file exists yet. -/
def emptySignalLog : SignalLog :=
  { total_signals := 0, by_symbol := [], by_type_bullish := 0
    by_type_bearish := 0 }

/-- `if symbol_name not in signal_log['by_symbol']: ... = {'total': 0, ...}`:
insert a zero entry for the key unless it is already present. -/
def ensure_symbol (l : List (String × SymCounts)) (s : String) :
    List (String × SymCounts) :=
  if l.any (fun p => p.1 = s) then l else l ++ [(s, ⟨0, 0, 0⟩)]

/-- The three `+=` updates on `by_symbol[symbol_name]`. -/
def bump_symbol (l : List (String × SymCounts)) (s : String)
    (t b be : ℕ) : List (String × SymCounts) :=
  l.map (fun p =>
    if p.1 = s then
      (p.1, ⟨p.2.total + t, p.2.bullish + b, p.2.bearish + be⟩)
    else p)

/-- The pure update performed by `log_signals` (run_backtests.py lines
158-175) between loading and saving the log: count Bullish/Bearish rows
of the signal frame and accumulate all counters. -/
def log_signals_update (signal_log : SignalLog) (symbol_name : String)
    (signals : List Signal) : SignalLog :=
  let bullish_count := (signals.filter (fun s => s.type = "Bullish")).length
  let bearish_count := (signals.filter (fun s => s.type = "Bearish")).length
  let total_count := signals.length
  { total_signals := signal_log.total_signals + total_count
    by_type_bullish := signal_log.by_type_bullish + bullish_count
    by_type_bearish := signal_log.by_type_bearish + bearish_count
    by_symbol :=
      bump_symbol (ensure_symbol signal_log.by_symbol symbol_name)
        symbol_name total_count bullish_count bearish_count }

/-- Dict lookup on an association list (first matching key). -/
def assoc_get (l : List (String × SymCounts)) (s : String) :
    Option SymCounts :=
  (l.find? (fun p => p.1 = s)).map (fun p => p.2)

/-- A sequence of `log_signals` ingestions applied in order. -/
def apply_log_calls (calls : List (String × List Signal))
    (signal_log : SignalLog) : SignalLog :=
  calls.foldl (fun l c => log_signals_update l c.1 c.2) signal_log

/-- The symbol loop of `run_all_backtests` (run_backtests.py lines
120-140) over one data type's symbol dict: skip the `daily_prices` key,
run the backtest, then null out the entry when the result carries an
error or its win rate is below 65%.  `bt` is the per-symbol backtest
(`run_backtest_on_symbol`). -/
def run_symbols {α : Type} (bt : String → α → BacktestResult)
    (symbols : List (String × α)) :
    List (String × Option BacktestResult) :=
  symbols.foldl (fun results p =>
    if p.1 = "daily_prices" then results
    else
      let result := bt p.1 p.2
      if result.error = none then
        if result.summary.win_rate_pos_R * 100 < 65 then
          results ++ [(p.1, none)]
        else results ++ [(p.1, some result)]
      else results ++ [(p.1, none)]) []

/-- `{k: v for k, v in symbols.items() if v is not None}` (run_backtests.py
line 139): drop the nulled entries. -/
def drop_none (results : List (String × Option BacktestResult)) :
    List (String × BacktestResult) :=
  results.filterMap (fun p => p.2.map (fun r => (p.1, r)))

/-- The full result mapping built by `run_all_backtests` before filtering:
one entry per data type of the cache. -/
def run_all_results {α : Type} (cache : List (String × List (String × α)))
    (bt : String → α → BacktestResult) :
    List (String × List (String × Option BacktestResult)) :=
  cache.map (fun p => (p.1, run_symbols bt p.2))

/-- The filtered mapping persisted to `cache/{strategy}_results.json`
(run_backtests.py lines 137-145). -/
def filtered_results {α : Type} (cache : List (String × List (String × α)))
    (bt : String → α → BacktestResult) :
    List (String × List (String × BacktestResult)) :=
  (run_all_results cache bt).map (fun p => (p.1, drop_none p.2))

/-- A keyed artifact store (the `cache/` directory): writing
`cache/{name}_results.json` overwrites the file for that key. -/
def save_artifact {β : Type} (store : List (String × β)) (nm : String)
    (art : β) : List (String × β) :=
  if store.any (fun p => p.1 = nm) then
    store.map (fun p => if p.1 = nm then (nm, art) else p)
  else store ++ [(nm, art)]

/-- Reading the artifact stored for a key. -/
def load_artifact {β : Type} (store : List (String × β)) (nm : String) :
    Option β :=
  (store.find? (fun p => p.1 = nm)).map (fun p => p.2)

/-- One invocation of `run_all_backtests` seen at the artifact store:
compute the filtered results for the cache and overwrite the strategy's
result artifact. -/
def run_all_and_persist {α : Type}
    (store : List (String × List (String × List (String × BacktestResult))))
    (cache : List (String × List (String × α)))
    (bt : String → α → BacktestResult) (strategy_name : String) :
    List (String × List (String × List (String × BacktestResult))) :=
  save_artifact store strategy_name (filtered_results cache bt)

/-- `run_all_backtests` with explicit persistence outcomes
(run_backtests.py lines 110-148): the cache read and the artifact write
sit outside any `try`, so their exceptions propagate. -/
def run_all_backtestsE {α : Type}
    (cacheRead : Except String (List (String × List (String × α))))
    (writeOutcome : Except String Unit)
    (bt : String → α → BacktestResult) :
    Except String (List (String × List (String × BacktestResult))) :=
  match cacheRead with
  | .error e => .error e
  | .ok cache =>
    let fr := filtered_results cache bt
    match writeOutcome with
    | .error e => .error e
    | .ok _ => .ok fr

/-- The sort of `generate_signal_ranking` (run_backtests.py lines 193-198):
Python's `sorted(..., key=lambda x: x[1]['total'], reverse=True)` is a
stable sort, descending on `total`; `mergeSort` with this comparison is
the same stable sort. -/
def rank_by_total (by_symbol : List (String × SymCounts)) :
    List (String × SymCounts) :=
  by_symbol.mergeSort (fun a b => b.2.total ≤ a.2.total)

/-- `top_symbols` (run_backtests.py line 203): the ranking truncated to
the top 10. -/
def top_symbols (signal_log : SignalLog) : List (String × SymCounts) :=
  (rank_by_total signal_log.by_symbol).take 10

/-- A trade row carrying a given `outcome_R`, for concrete instances. -/
def sampleTrade (r : ℚ) : Trade :=
  { entry_date := "", exit_date := "", entry_price := 0, exit_price := 0
    outcome_R := r, type := "Bullish" }

/-- A summary whose win rate is exactly the 65% boundary. -/
def boundarySummary : Summary :=
  { num_trades := 1, avg_outcome_R := 1, win_rate_pos_R := 65 / 100
    bullish_trades := 1, bearish_trades := 0 }

/-- A summary with a 100% win rate, for concrete instances. -/
def fullWinSummary : Summary :=
  { num_trades := 1, avg_outcome_R := 1, win_rate_pos_R := 1
    bullish_trades := 1, bearish_trades := 0 }

/-- A per-symbol backtest that always succeeds with a 100% win rate. -/
def fullWinBt : String → Unit → BacktestResult :=
  fun s _ => format_strategy_results s fullWinSummary [] "ob_refined_strategy"

theorem cumsum_length (acc : ℚ) (l : List ℚ) :
    (cumsum acc l).length = l.length := by
  induction l generalizing acc with
  | nil => rfl
  | cons x xs ih => simp [cumsum, ih]

theorem cumsum_get (acc : ℚ) (l : List ℚ) (i : ℕ) (h : i < l.length) :
    (cumsum acc l).get ⟨i, by rw [cumsum_length]; exact h⟩
      = acc + (l.take (i + 1)).sum := by
  induction l generalizing acc i with
  | nil => simp at h
  | cons x xs ih =>
    cases i with
    | zero => simp [cumsum]
    | succ j =>
      have hj : j < xs.length := by simpa using h
      simp only [cumsum, List.get_eq_getElem, List.getElem_cons_succ,
        List.take_succ_cons, List.sum_cons]
      have := ih (acc + x) j hj
      simp only [List.get_eq_getElem] at this
      rw [this]
      ring

/-- C1 counterexample: on the two-bar series with closes 1 and 2,
`simple_backtest` produces one trade with `outcome_R = 1` but an equity
curve `[0, 1]` of length 2, whose entry 0 is 0, not the prefix sum 1 of
`trades[0..0].outcome_R`; so the equity curve is not the same-length
running prefix-sum of `outcome_R` claimed for `simple_backtest`. -/
theorem C1_counterexample :
    (simple_backtest [1, 2] ["2024-01-01", "2024-01-02"] "IBIT").map
        (fun r => ((r.equity_curve.getD []).length, (r.trades.getD []).length,
          (r.equity_curve.getD []).headD 99,
          (r.trades.getD []).map (fun t => t.outcome_R)))
      = .ok (2, 1, 0, [1])
    ∧ (2 : ℕ) ≠ 1 ∧ (0 : ℚ) ≠ 1 := by
  refine ⟨?_, by decide, by norm_num⟩
  norm_num [simple_backtest, Except.map]

/-- C1 (amended): for results shaped by `format_strategy_results` the
equity curve is exactly the running prefix-sum of `outcome_R` in trade
order and has the same length as the trade list; for `simple_backtest`
on a non-empty series, the equity curve is instead the prefix sums with a
leading zero, `0 :: cumsum`, of length `len(trades) + 1`. -/
theorem C1_equity_curve_prefix_sum :
    (∀ (symbol_name : String) (summary : Summary) (trades : List Trade)
        (strategy_name : String),
      (format_strategy_results symbol_name summary trades
            strategy_name).equity_curve
          = some (cumsum 0 (trades.map (fun t => t.outcome_R)))
        ∧ (cumsum 0 (trades.map (fun t => t.outcome_R))).length = trades.length
        ∧ ∀ (i : ℕ) (h : i < trades.length),
            (cumsum 0 (trades.map (fun t => t.outcome_R))).get
                ⟨i, by rw [cumsum_length, List.length_map]; exact h⟩
              = ((trades.take (i + 1)).map (fun t => t.outcome_R)).sum)
    ∧ ∀ (closes : List ℚ) (dates : List String) (symbol : String),
        closes ≠ [] →
        ∃ r ts, simple_backtest closes dates symbol = .ok r
          ∧ r.trades = some ts
          ∧ r.equity_curve
              = some (0 :: cumsum 0 (ts.map (fun t => t.outcome_R)))
          ∧ (0 :: cumsum 0 (ts.map (fun t => t.outcome_R))).length
              = ts.length + 1 := by
  constructor
  · intro symbol_name summary trades strategy_name
    refine ⟨rfl, by rw [cumsum_length, List.length_map], ?_⟩
    intro i h
    have hm : i < (trades.map (fun t => t.outcome_R)).length := by
      rw [List.length_map]; exact h
    have := cumsum_get 0 (trades.map (fun t => t.outcome_R)) i hm
    rw [this, zero_add, List.map_take]
  · intro closes dates symbol hne
    have hE : closes.isEmpty = false := by
      cases closes with
      | nil => exact absurd rfl hne
      | cons a as => rfl
    refine ⟨simple_backtest_ok closes dates symbol,
      (simple_backtest_ok closes dates symbol).trades.getD [], ?_, ?_, ?_, ?_⟩
    · simp only [simple_backtest, simple_backtest_ok, hE, Bool.false_eq_true,
        if_false]
    · rfl
    · simp [simple_backtest_ok, cumsum]
    · simp [simple_backtest_ok, cumsum]

/-- C1 witness: the amended statement instantiated on a concrete two-trade
list with outcomes 2 and 3, and on the concrete series `[1, 2]`. -/
theorem C1_witness :
    ((cumsum 0 ([sampleTrade 2, sampleTrade 3].map (fun t => t.outcome_R))).get
        ⟨1, by rw [cumsum_length, List.length_map]; decide⟩
      = (([sampleTrade 2, sampleTrade 3].take 2).map
          (fun t => t.outcome_R)).sum)
    ∧ ∃ r ts, simple_backtest [1, 2] ["2024-01-01", "2024-01-02"] "IBIT"
          = .ok r
        ∧ r.trades = some ts
        ∧ r.equity_curve = some (0 :: cumsum 0 (ts.map (fun t => t.outcome_R))) := by
  constructor
  · exact (C1_equity_curve_prefix_sum.1 "AAPL" zeroedSummary
      [sampleTrade 2, sampleTrade 3] "ob_refined_strategy").2.2 1 (by decide)
  · obtain ⟨r, ts, h1, h2, h3, _⟩ :=
      C1_equity_curve_prefix_sum.2 [1, 2] ["2024-01-01", "2024-01-02"] "IBIT"
        (by decide)
    exact ⟨r, ts, h1, h2, h3⟩

theorem try_strategy_body_ok_shape (symbol_name strategy_name : String)
    (evalOutcome : Except String StratOut) (logOutcome : Except String Unit)
    (r : BacktestResult)
    (h : try_strategy_body symbol_name strategy_name evalOutcome logOutcome
      = .ok r) :
    ∃ out : StratOut,
      r = format_strategy_results symbol_name out.summary out.trades
        strategy_name := by
  unfold try_strategy_body at h
  cases hd : strat_dispatch strategy_name evalOutcome with
  | error e => rw [hd] at h; exact absurd h (by simp)
  | ok out =>
    rw [hd] at h
    simp only at h
    split at h
    · exact absurd h (by simp)
    · exact ⟨out, by injection h with h2; exact h2.symm⟩

/-- C2: for every input, symbol and strategy name, `run_strategy_backtest`
never raises (`run_strategy_backtestE` is always `.ok`); any exception
during strategy evaluation — including the `ValueError` for an unknown
strategy name — becomes the error variant carrying the symbol, the
strategy name, the error message and the zeroed summary; and exactly one
of the error variant and the success variant (trades plus equity curve,
no error field) is populated. -/
theorem C2_runner_fault_isolation (symbol_name strategy_name : String)
    (evalOutcome : Except String StratOut) (logOutcome : Except String Unit) :
    run_strategy_backtestE symbol_name strategy_name evalOutcome logOutcome
      = .ok (run_strategy_backtest symbol_name strategy_name evalOutcome
        logOutcome)
    ∧ (((run_strategy_backtest symbol_name strategy_name evalOutcome
          logOutcome).error = none
        ∧ (∃ ts, (run_strategy_backtest symbol_name strategy_name evalOutcome
            logOutcome).trades = some ts)
        ∧ (∃ ec, (run_strategy_backtest symbol_name strategy_name evalOutcome
            logOutcome).equity_curve = some ec))
      ∨ ∃ msg, run_strategy_backtest symbol_name strategy_name evalOutcome
            logOutcome
          = handle_strategy_error symbol_name strategy_name msg)
    ∧ ((run_strategy_backtest symbol_name strategy_name evalOutcome
          logOutcome).error = none
        ↔ (run_strategy_backtest symbol_name strategy_name evalOutcome
          logOutcome).trades ≠ none)
    ∧ (strategy_name ∉ ["ob_refined_strategy", "fractal_refined_strategy",
          "fractal_ob_strategy"] →
        run_strategy_backtest symbol_name strategy_name evalOutcome logOutcome
          = handle_strategy_error symbol_name strategy_name
            ("Unknown strategy: " ++ strategy_name)) := by
  have hvariant :
      ((run_strategy_backtest symbol_name strategy_name evalOutcome
          logOutcome).error = none
        ∧ (∃ ts, (run_strategy_backtest symbol_name strategy_name evalOutcome
            logOutcome).trades = some ts)
        ∧ (∃ ec, (run_strategy_backtest symbol_name strategy_name evalOutcome
            logOutcome).equity_curve = some ec))
      ∨ ∃ msg, run_strategy_backtest symbol_name strategy_name evalOutcome
            logOutcome
          = handle_strategy_error symbol_name strategy_name msg := by
    unfold run_strategy_backtest
    cases hb : try_strategy_body symbol_name strategy_name evalOutcome
        logOutcome with
    | ok r =>
      obtain ⟨out, hout⟩ := try_strategy_body_ok_shape _ _ _ _ r hb
      subst hout
      exact Or.inl ⟨rfl, ⟨out.trades, rfl⟩, ⟨_, rfl⟩⟩
    | error e => exact Or.inr ⟨e, rfl⟩
  refine ⟨?_, hvariant, ?_, ?_⟩
  · unfold run_strategy_backtestE run_strategy_backtest
    cases try_strategy_body symbol_name strategy_name evalOutcome logOutcome
      <;> rfl
  · rcases hvariant with ⟨he, ⟨ts, ht⟩, _⟩ | ⟨msg, hr⟩
    · constructor
      · intro _; rw [ht]; exact Option.some_ne_none ts
      · intro _; exact he
    · rw [hr]
      constructor
      · intro hc; exact absurd hc (by simp [handle_strategy_error])
      · intro hc; simp [handle_strategy_error] at hc
  · intro hunknown
    have hd : strat_dispatch strategy_name evalOutcome
        = .error ("Unknown strategy: " ++ strategy_name) := by
      unfold strat_dispatch
      rw [if_neg, if_neg]
      · rintro (h1 | h2) <;> simp_all
      · intro h1; simp_all
    unfold run_strategy_backtest try_strategy_body
    rw [hd]

/-- C2 witness: the fault isolation instantiated at an unknown strategy
name, yielding the error variant rather than an exception. -/
theorem C2_witness :
    run_strategy_backtest "AAPL" "no_such_strategy"
        (.ok ⟨none, [], zeroedSummary⟩) (.ok ())
      = handle_strategy_error "AAPL" "no_such_strategy"
        ("Unknown strategy: " ++ "no_such_strategy")
    ∧ run_strategy_backtestE "AAPL" "no_such_strategy"
        (.ok ⟨none, [], zeroedSummary⟩) (.ok ())
      = .ok (run_strategy_backtest "AAPL" "no_such_strategy"
        (.ok ⟨none, [], zeroedSummary⟩) (.ok ())) := by
  have h := C2_runner_fault_isolation "AAPL" "no_such_strategy"
    (.ok ⟨none, [], zeroedSummary⟩) (.ok ())
  exact ⟨h.2.2.2 (by decide), h.1⟩

theorem foldl_append_of_step {α β : Type} (f : List β → α → List β)
    (hf : ∀ acc a, f acc a = acc ++ f [] a) :
    ∀ (l : List α) (acc : List β), l.foldl f acc = acc ++ l.foldl f [] := by
  intro l
  induction l with
  | nil => simp
  | cons a as ih =>
    intro acc
    rw [List.foldl_cons, ih (f acc a), List.foldl_cons, ih (f [] a), hf acc a,
      List.append_assoc]

theorem run_symbols_eq_filterMap {α : Type} (bt : String → α → BacktestResult)
    (symbols : List (String × α)) :
    run_symbols bt symbols
      = symbols.filterMap (fun p =>
          if p.1 = "daily_prices" then none
          else if (bt p.1 p.2).error = none then
            if (bt p.1 p.2).summary.win_rate_pos_R * 100 < 65 then
              some (p.1, none)
            else some (p.1, some (bt p.1 p.2))
          else some (p.1, none)) := by
  have hstep : ∀ (acc : List (String × Option BacktestResult))
      (p : String × α),
      (if p.1 = "daily_prices" then acc
       else
        let result := bt p.1 p.2
        if result.error = none then
          if result.summary.win_rate_pos_R * 100 < 65 then
            acc ++ [(p.1, none)]
          else acc ++ [(p.1, some result)]
        else acc ++ [(p.1, none)])
      = acc ++
        (if p.1 = "daily_prices" then []
         else
          let result := bt p.1 p.2
          if result.error = none then
            if result.summary.win_rate_pos_R * 100 < 65 then
              [(p.1, none)]
            else [(p.1, some result)]
          else [(p.1, none)]) := by
    intro acc p
    by_cases h1 : p.1 = "daily_prices"
    · simp [h1]
    · by_cases h2 : (bt p.1 p.2).error = none
      · by_cases h3 : (bt p.1 p.2).summary.win_rate_pos_R * 100 < 65
          <;> simp [h1, h2, h3]
      · simp [h1, h2]
  induction symbols with
  | nil => rfl
  | cons p ps ih =>
    show List.foldl _ _ (p :: ps) = _
    rw [List.foldl_cons, List.filterMap_cons,
      foldl_append_of_step _ hstep ps]
    rw [show List.foldl _ ([] : List (String × Option BacktestResult)) ps
      = run_symbols bt ps from rfl, ih]
    by_cases h1 : p.1 = "daily_prices"
    · simp [h1]
    · by_cases h2 : (bt p.1 p.2).error = none
      · by_cases h3 : (bt p.1 p.2).summary.win_rate_pos_R * 100 < 65
          <;> simp [h1, h2, h3]
      · simp [h1, h2]

theorem drop_none_run_symbols {α : Type} (bt : String → α → BacktestResult)
    (symbols : List (String × α)) :
    drop_none (run_symbols bt symbols)
      = symbols.filterMap (fun p =>
          if p.1 = "daily_prices" then none
          else if (bt p.1 p.2).error = none then
            if (bt p.1 p.2).summary.win_rate_pos_R * 100 < 65 then none
            else some (p.1, bt p.1 p.2)
          else none) := by
  rw [run_symbols_eq_filterMap]
  unfold drop_none
  rw [List.filterMap_filterMap]
  congr 1
  funext p
  by_cases h1 : p.1 = "daily_prices"
  · simp [h1]
  · by_cases h2 : (bt p.1 p.2).error = none
    · by_cases h3 : (bt p.1 p.2).summary.win_rate_pos_R * 100 < 65
        <;> simp [h1, h2, h3]
    · simp [h1, h2]

theorem run_symbols_keys {α : Type} (bt : String → α → BacktestResult)
    (symbols : List (String × α)) :
    (run_symbols bt symbols).map (fun p => p.1)
      = (symbols.filter (fun p => p.1 ≠ "daily_prices")).map
          (fun p => p.1) := by
  rw [run_symbols_eq_filterMap]
  induction symbols with
  | nil => rfl
  | cons p ps ih =>
    rw [List.filterMap_cons, List.filter_cons]
    by_cases h1 : p.1 = "daily_prices"
    · simpa [h1] using ih
    · by_cases h2 : (bt p.1 p.2).error = none
      · by_cases h3 : (bt p.1 p.2).summary.win_rate_pos_R * 100 < 65
          <;> simpa [h1, h2, h3] using ih
      · simpa [h1, h2] using ih

/-- C3 counterexample: a cache whose data-type partition is itself named
`daily_prices` is not skipped — its symbols are processed, retained and
persisted — so `daily_prices` does occur as a key in the persisted batch
result artifact. -/
theorem C3_counterexample :
    (filtered_results [("daily_prices", [("AAPL", ())])] fullWinBt).map
        (fun p => p.1)
      = ["daily_prices"]
    ∧ filtered_results [("daily_prices", [("AAPL", ())])] fullWinBt
      = [("daily_prices",
          [("AAPL", format_strategy_results "AAPL" fullWinSummary []
            "ob_refined_strategy")])] := by
  constructor
  · rfl
  · norm_num [filtered_results, run_all_results, run_symbols, drop_none,
      fullWinBt, format_strategy_results, fullWinSummary, cumsum]
    rw [if_neg (show ¬ ("AAPL" : String) = "daily_prices" by decide)]
    rfl

/-- C3 (amended): the sentinel is skipped at the symbol level only.
Within each data type the aggregator iterates exactly the symbols whose
key differs from `daily_prices` (in order), and `daily_prices` never
occurs as a *symbol* key inside any partition of the persisted artifact;
the top-level keys of the artifact, however, are all data-type keys of
the cache, so a data type named `daily_prices` is iterated and persisted. -/
theorem C3_sentinel_symbol_skip {α : Type} (bt : String → α → BacktestResult)
    (cache : List (String × List (String × α))) :
    (∀ symbols : List (String × α),
      (run_symbols bt symbols).map (fun p => p.1)
        = (symbols.filter (fun p => p.1 ≠ "daily_prices")).map
            (fun p => p.1))
    ∧ (∀ part ∈ filtered_results cache bt, ∀ q ∈ part.2,
        q.1 ≠ "daily_prices")
    ∧ (filtered_results cache bt).map (fun p => p.1)
        = cache.map (fun p => p.1) := by
  have hfr : filtered_results cache bt
      = cache.map (fun p => (p.1, drop_none (run_symbols bt p.2))) := by
    unfold filtered_results run_all_results
    rw [List.map_map]
    rfl
  refine ⟨run_symbols_keys bt, ?_, ?_⟩
  · intro part hpart q hq
    rw [hfr] at hpart
    obtain ⟨c, _, rfl⟩ := List.mem_map.mp hpart
    simp only at hq
    rw [drop_none_run_symbols] at hq
    obtain ⟨p, _, hg⟩ := List.mem_filterMap.mp hq
    by_cases h1 : p.1 = "daily_prices"
    · simp [h1] at hg
    · by_cases h2 : (bt p.1 p.2).error = none
      · by_cases h3 : (bt p.1 p.2).summary.win_rate_pos_R * 100 < 65
        · simp [h1, h2, h3] at hg
        · rw [if_neg h1, if_pos h2, if_neg h3] at hg
          simp only [Option.some.injEq] at hg
          rw [← hg]
          exact h1
      · simp [h1, h2] at hg
  · rw [hfr, List.map_map]
    rfl

/-- C3 witness: the amended statement instantiated on a two-symbol
partition containing the sentinel key and a retained symbol. -/
theorem C3_witness :
    (run_symbols fullWinBt [("AAPL", ()), ("daily_prices", ())]).map
        (fun p => p.1)
      = ([("AAPL", ()), ("daily_prices", ())].filter
          (fun p => p.1 ≠ "daily_prices")).map (fun p => p.1)
    ∧ ("AAPL" : String) ≠ "daily_prices" := by
  have h := C3_sentinel_symbol_skip fullWinBt
    [("etfs", [("AAPL", ()), ("daily_prices", ())])]
  refine ⟨h.1 _, ?_⟩
  refine h.2.1
    ("etfs", drop_none (run_symbols fullWinBt
      [("AAPL", ()), ("daily_prices", ())]))
    ?_
    ("AAPL", fullWinBt "AAPL" ())
    ?_
  · have hfr : filtered_results
        [("etfs", [("AAPL", ()), ("daily_prices", ())])] fullWinBt
        = [("etfs", drop_none (run_symbols fullWinBt
            [("AAPL", ()), ("daily_prices", ())]))] := by
      unfold filtered_results run_all_results
      rfl
    rw [hfr]
    exact List.mem_singleton.mpr rfl
  · show ("AAPL", fullWinBt "AAPL" ()) ∈ drop_none (run_symbols fullWinBt
      [("AAPL", ()), ("daily_prices", ())])
    norm_num [run_symbols, drop_none, fullWinBt, format_strategy_results,
      fullWinSummary]
    exact ⟨"AAPL", _, ⟨by decide, rfl, rfl⟩, rfl, rfl⟩

/-- C4: a symbol appears in the persisted filtered output iff its result
is a success variant (no error field) produced on that symbol's data with
`win_rate_pos_R * 100 >= 65`; the boundary is inclusive, and error or
below-threshold results are dropped entirely, not kept as error records. -/
theorem C4_retention_filter {α : Type} (bt : String → α → BacktestResult)
    (symbols : List (String × α)) (s : String) (r : BacktestResult) :
    (s, r) ∈ drop_none (run_symbols bt symbols)
      ↔ ∃ d, (s, d) ∈ symbols ∧ s ≠ "daily_prices" ∧ r = bt s d
          ∧ r.error = none ∧ 65 ≤ r.summary.win_rate_pos_R * 100 := by
  rw [drop_none_run_symbols, List.mem_filterMap]
  constructor
  · rintro ⟨p, hp, hg⟩
    by_cases h1 : p.1 = "daily_prices"
    · simp [h1] at hg
    · by_cases h2 : (bt p.1 p.2).error = none
      · by_cases h3 : (bt p.1 p.2).summary.win_rate_pos_R * 100 < 65
        · simp [h1, h2, h3] at hg
        · rw [if_neg h1, if_pos h2, if_neg h3] at hg
          simp only [Option.some.injEq, Prod.mk.injEq] at hg
          obtain ⟨hg1, hg2⟩ := hg
          subst hg1
          subst hg2
          exact ⟨p.2, by simpa using hp, h1, rfl, h2, not_lt.mp h3⟩
      · simp [h1, h2] at hg
  · rintro ⟨d, hd, hs, hr, he, hw⟩
    refine ⟨(s, d), hd, ?_⟩
    have h3 : ¬ (bt s d).summary.win_rate_pos_R * 100 < 65 := by
      rw [← hr]; exact not_lt.mpr hw
    have h2 : (bt s d).error = none := by rw [← hr]; exact he
    rw [if_neg hs, if_pos h2, if_neg h3, ← hr]

/-- C4 witness: a result whose win rate is exactly 0.65 is retained. -/
theorem C4_witness :
    ("AAPL", format_strategy_results "AAPL" boundarySummary []
        "ob_refined_strategy")
      ∈ drop_none (run_symbols
          (fun s _ => format_strategy_results s boundarySummary []
            "ob_refined_strategy")
          [("AAPL", ())]) := by
  refine (C4_retention_filter _ _ _ _).mpr
    ⟨(), List.mem_singleton.mpr rfl, by decide, rfl, rfl, ?_⟩
  show (65 : ℚ) ≤ (format_strategy_results "AAPL" boundarySummary []
    "ob_refined_strategy").summary.win_rate_pos_R * 100
  norm_num [format_strategy_results, boundarySummary]

/-- C5 counterexample: a persistence failure inside the `log_signals`
read-merge-write, raised while `run_strategy_backtest` is executing its
`try` block, does not propagate out of the invocation: the runner's
catch-all converts it into an error-variant result. -/
theorem C5_counterexample :
    run_strategy_backtestE "AAPL" "fractal_refined_strategy"
        (.ok { signals := some [{ type := "Bullish" }], trades := []
               summary := zeroedSummary })
        (.error "disk full")
      = .ok (handle_strategy_error "AAPL" "fractal_refined_strategy"
        "disk full") := by
  rfl

/-- C5 (amended): persistence errors of the batch aggregator — the cache
read and the result-artifact write, which sit outside any `try` — do
propagate and fail the invocation; but a persistence error raised by the
`log_signals` read-merge-write while inside `run_strategy_backtest` is
caught by the runner's catch-all and becomes an error-variant result
instead of propagating. -/
theorem C5_persistence_error_flow {α : Type}
    (bt : String → α → BacktestResult)
    (cache : List (String × List (String × α))) (e : String)
    (symbol_name : String) (out : StratOut) (sigs : List Signal) :
    run_all_backtestsE (α := α) (.error e) (.ok ()) bt = .error e
    ∧ run_all_backtestsE (.ok cache) (.error e) bt = .error e
    ∧ (out.signals = some sigs → sigs ≠ [] →
        run_strategy_backtestE symbol_name "fractal_refined_strategy"
            (.ok out) (.error e)
          = .ok (handle_strategy_error symbol_name
            "fractal_refined_strategy" e)) := by
  refine ⟨rfl, rfl, ?_⟩
  intro hsig hne
  have hE : sigs.isEmpty = false := by
    cases sigs with
    | nil => exact absurd rfl hne
    | cons a as => rfl
  have hd : strat_dispatch "fractal_refined_strategy" (.ok out)
      = .ok out := by
    unfold strat_dispatch
    rw [if_neg (by decide), if_pos (Or.inl rfl)]
  unfold run_strategy_backtestE try_strategy_body
  rw [hd]
  simp only [hsig, hE, Bool.false_eq_true, if_false]

/-- C5 witness: the amended statement instantiated on a concrete strategy
output with one Bullish signal and a failing log write. -/
theorem C5_witness :
    run_all_backtestsE (α := Unit) (.error "cannot read cache") (.ok ())
        fullWinBt
      = .error "cannot read cache"
    ∧ run_all_backtestsE (.ok [("etfs", [("AAPL", ())])])
        (.error "cannot write artifact") fullWinBt
      = .error "cannot write artifact"
    ∧ run_strategy_backtestE "IBIT" "fractal_refined_strategy"
        (.ok { signals := some [{ type := "Bearish" }], trades := []
               summary := zeroedSummary })
        (.error "disk full")
      = .ok (handle_strategy_error "IBIT" "fractal_refined_strategy"
        "disk full") := by
  have h := C5_persistence_error_flow fullWinBt [("etfs", [("AAPL", ())])]
    "cannot read cache" "IBIT"
    { signals := some [{ type := "Bearish" }], trades := []
      summary := zeroedSummary }
    [{ type := "Bearish" }]
  refine ⟨h.1, ?_, ?_⟩
  · exact (C5_persistence_error_flow fullWinBt [("etfs", [("AAPL", ())])]
      "cannot write artifact" "IBIT"
      { signals := some [{ type := "Bearish" }], trades := []
        summary := zeroedSummary }
      [{ type := "Bearish" }]).2.1
  · exact (C5_persistence_error_flow fullWinBt [("etfs", [("AAPL", ())])]
      "disk full" "IBIT"
      { signals := some [{ type := "Bearish" }], trades := []
        summary := zeroedSummary }
      [{ type := "Bearish" }]).2.2 rfl (by decide)

theorem save_artifact_cons_neg {β : Type} (p : String × β)
    (ps : List (String × β)) (nm : String) (art : β) (hp : p.1 ≠ nm) :
    save_artifact (p :: ps) nm art = p :: save_artifact ps nm art := by
  unfold save_artifact
  have hps : (p :: ps).any (fun q => q.1 = nm)
      = ps.any (fun q => q.1 = nm) := by
    simp [List.any_cons, hp]
  rw [hps]
  by_cases hany : ps.any (fun q => q.1 = nm)
  · rw [if_pos hany, if_pos hany, List.map_cons, if_neg hp]
  · rw [if_neg hany, if_neg hany, List.cons_append]

theorem load_save_artifact {β : Type} (store : List (String × β))
    (nm : String) (art : β) :
    load_artifact (save_artifact store nm art) nm = some art := by
  induction store with
  | nil =>
    simp [save_artifact, load_artifact]
  | cons p ps ih =>
    by_cases hp : p.1 = nm
    · have hany : (p :: ps).any (fun q => q.1 = nm) = true := by
        simp [List.any_cons, hp]
      unfold save_artifact
      rw [if_pos hany]
      unfold load_artifact
      rw [List.map_cons, if_pos hp, List.find?_cons_of_pos _ (by simp)]
      rfl
    · rw [save_artifact_cons_neg p ps nm art hp]
      unfold load_artifact
      rw [List.find?_cons_of_neg _ (by simp [hp])]
      exact ih

/-- C8: the batch aggregator's persistence is an idempotent full
overwrite keyed by strategy name: with unchanged price data and strategy
the persisted artifact equals `filtered_results cache bt` whatever the
prior store contents, so running twice yields the identical artifact and
no merge with a prior artifact occurs. -/
theorem C8_idempotent_overwrite {α : Type}
    (store store2 :
      List (String × List (String × List (String × BacktestResult))))
    (cache : List (String × List (String × α)))
    (bt : String → α → BacktestResult) (strategy_name : String) :
    load_artifact
        (run_all_and_persist
          (run_all_and_persist store cache bt strategy_name)
          cache bt strategy_name)
        strategy_name
      = load_artifact (run_all_and_persist store cache bt strategy_name)
        strategy_name
    ∧ load_artifact (run_all_and_persist store cache bt strategy_name)
        strategy_name
      = some (filtered_results cache bt)
    ∧ load_artifact (run_all_and_persist store cache bt strategy_name)
        strategy_name
      = load_artifact (run_all_and_persist store2 cache bt strategy_name)
        strategy_name := by
  simp only [run_all_and_persist, load_save_artifact]
  exact ⟨trivial, trivial, trivial⟩

theorem getLastD_replicate (n : ℕ) (c d : ℚ) :
    (List.replicate (n + 1) c).getLastD d = c := by
  induction n generalizing d with
  | zero => rfl
  | succ m ih =>
    rw [List.replicate_succ, List.getLastD_cons]
    exact ih c

/-- C9: on a non-empty all-equal price series (every close equal to a
non-zero `c`), `simple_backtest` succeeds with total return 0
(`avg_outcome_R = 0`) and `win_rate_pos_R = 0` — a zero return is not
positive — and the symbol is dropped by the 65% retention filter. -/
theorem C9_flat_series_dropped (n : ℕ) (c : ℚ) (dates : List String)
    (symbol : String) (hn : 0 < n) (hc : c ≠ 0) :
    ∃ r, simple_backtest (List.replicate n c) dates symbol = .ok r
      ∧ r.summary.avg_outcome_R = 0
      ∧ r.summary.win_rate_pos_R = 0
      ∧ drop_none (run_symbols (fun _ _ => r) [(symbol, ())]) = [] := by
  have hE : (List.replicate n c).isEmpty = false := by
    cases n with
    | zero => exact absurd hn (by simp)
    | succ m => rw [List.replicate_succ]; rfl
  have hhead : (List.replicate n c).headD 0 = c := by
    cases n with
    | zero => exact absurd hn (by simp)
    | succ m => rw [List.replicate_succ]; rfl
  have hlast : (List.replicate n c).getLastD 0 = c := by
    cases n with
    | zero => exact absurd hn (by simp)
    | succ m => exact getLastD_replicate m c 0
  have htr : ((List.replicate n c).getLastD 0
      - (List.replicate n c).headD 0) / (List.replicate n c).headD 0 * 100
      = 0 := by
    rw [hhead, hlast]
    simp
  refine ⟨simple_backtest_ok (List.replicate n c) dates symbol, ?_, ?_, ?_, ?_⟩
  · simp only [simple_backtest, simple_backtest_ok, hE, Bool.false_eq_true,
      if_false]
  · show ((List.replicate n c).getLastD 0 - (List.replicate n c).headD 0)
      / (List.replicate n c).headD 0 * 100 / 100 = 0
    rw [htr]
    norm_num
  · show (if ((List.replicate n c).getLastD 0 - (List.replicate n c).headD 0)
        / (List.replicate n c).headD 0 * 100 > 0 then (1 : ℚ) else 0) = 0
    rw [htr]
    norm_num
  · have hwr : (simple_backtest_ok (List.replicate n c) dates
        symbol).summary.win_rate_pos_R = 0 := by
      show (if ((List.replicate n c).getLastD 0
          - (List.replicate n c).headD 0)
          / (List.replicate n c).headD 0 * 100 > 0 then (1 : ℚ) else 0) = 0
      rw [htr]
      norm_num
    unfold run_symbols
    rw [List.foldl_cons, List.foldl_nil]
    by_cases hsym : symbol = "daily_prices"
    · rw [if_pos hsym]
      rfl
    · rw [if_neg hsym]
      simp only [if_pos (show (simple_backtest_ok (List.replicate n c) dates
        symbol).error = none from rfl)]
      rw [if_pos (by rw [hwr]; norm_num)]
      rfl

/-- C9 witness: five identical-price bars at close 100. -/
theorem C9_witness :
    (0 : ℕ) < 5 ∧ (100 : ℚ) ≠ 0
    ∧ ∃ r, simple_backtest (List.replicate 5 (100 : ℚ)) ["2024-01-01"]
            "IBIT"
          = .ok r
        ∧ r.summary.win_rate_pos_R = 0
        ∧ drop_none (run_symbols (fun _ _ => r) [("IBIT", ())]) = [] := by
  refine ⟨by decide, by norm_num, ?_⟩
  obtain ⟨r, h1, _, h3, h4⟩ := C9_flat_series_dropped 5 100 ["2024-01-01"]
    "IBIT" (by decide) (by norm_num)
  exact ⟨r, h1, h3, h4⟩

theorem bump_symbol_of_not_mem (l : List (String × SymCounts)) (s : String)
    (t b be : ℕ) (h : l.any (fun p => p.1 = s) = false) :
    bump_symbol l s t b be = l := by
  induction l with
  | nil => rfl
  | cons p ps ih =>
    simp only [List.any_cons, Bool.or_eq_false_iff] at h
    obtain ⟨h1, h2⟩ := h
    have hp : ¬ p.1 = s := by simpa using h1
    simp only [bump_symbol, List.map_cons, if_neg hp]
    have := ih h2
    unfold bump_symbol at this
    rw [this]

theorem assoc_get_bump_of_mem (l : List (String × SymCounts)) (s : String)
    (t b be : ℕ) (h : l.any (fun p => p.1 = s) = true) :
    assoc_get (bump_symbol l s t b be) s
      = some { total := ((assoc_get l s).getD ⟨0, 0, 0⟩).total + t
               bullish := ((assoc_get l s).getD ⟨0, 0, 0⟩).bullish + b
               bearish := ((assoc_get l s).getD ⟨0, 0, 0⟩).bearish + be } := by
  induction l with
  | nil => simp at h
  | cons p ps ih =>
    by_cases hp : p.1 = s
    · simp only [bump_symbol, List.map_cons, if_pos hp]
      unfold assoc_get
      rw [List.find?_cons_of_pos _ (by simpa using hp),
        List.find?_cons_of_pos _ (by simpa using hp)]
      rfl
    · simp only [List.any_cons, Bool.or_eq_true] at h
      rcases h with h1 | h2
      · exact absurd (by simpa using h1) hp
      · simp only [bump_symbol, List.map_cons, if_neg hp]
        unfold assoc_get
        rw [List.find?_cons_of_neg _ (by simpa using hp),
          List.find?_cons_of_neg _ (by simpa using hp)]
        have := ih h2
        unfold assoc_get bump_symbol at this
        exact this

theorem assoc_get_update (l : List (String × SymCounts)) (s : String)
    (t b be : ℕ) :
    assoc_get (bump_symbol (ensure_symbol l s) s t b be) s
      = some { total := ((assoc_get l s).getD ⟨0, 0, 0⟩).total + t
               bullish := ((assoc_get l s).getD ⟨0, 0, 0⟩).bullish + b
               bearish := ((assoc_get l s).getD ⟨0, 0, 0⟩).bearish + be } := by
  by_cases hmem : l.any (fun p => p.1 = s)
  · rw [show ensure_symbol l s = l from if_pos hmem]
    exact assoc_get_bump_of_mem l s t b be hmem
  · have hens : ensure_symbol l s = l ++ [(s, (⟨0, 0, 0⟩ : SymCounts))] :=
      if_neg hmem
    have hany : (l ++ [(s, (⟨0, 0, 0⟩ : SymCounts))]).any
        (fun p => p.1 = s) = true := by
      simp [List.any_append]
    rw [hens, assoc_get_bump_of_mem _ s t b be hany]
    have hget : assoc_get (l ++ [(s, (⟨0, 0, 0⟩ : SymCounts))]) s
        = some ⟨0, 0, 0⟩ := by
      unfold assoc_get
      rw [List.find?_append]
      have hnone : l.find? (fun p => p.1 = s) = none := by
        rw [List.find?_eq_none]
        intro p hp hc
        exact hmem (List.any_eq_true.mpr ⟨p, hp, hc⟩)
      rw [hnone]
      simp
    have hgetl : assoc_get l s = none := by
      unfold assoc_get
      have hnone : l.find? (fun p => p.1 = s) = none := by
        rw [List.find?_eq_none]
        intro p hp hc
        exact hmem (List.any_eq_true.mpr ⟨p, hp, hc⟩)
      rw [hnone]
      rfl
    rw [hget, hgetl]
    simp

/-- C6: `log_signals` accumulates additively: each call adds the supplied
signal count to `total_signals`, the Bullish and Bearish counts to
`by_type`, and the same three counts to the called symbol's `by_symbol`
entry (created at zero on first sight); in particular two calls for the
same symbol with counts Bullish 2 / Bearish 1 and then Bullish 1 /
Bearish 0 starting from the empty log leave that symbol's entry at
total 4, bullish 3, bearish 1. -/
theorem C6_log_signals_accumulates (signal_log : SignalLog)
    (symbol_name : String) (signals : List Signal) :
    (log_signals_update signal_log symbol_name signals).total_signals
        = signal_log.total_signals + signals.length
    ∧ (log_signals_update signal_log symbol_name signals).by_type_bullish
        = signal_log.by_type_bullish
          + (signals.filter (fun s => s.type = "Bullish")).length
    ∧ (log_signals_update signal_log symbol_name signals).by_type_bearish
        = signal_log.by_type_bearish
          + (signals.filter (fun s => s.type = "Bearish")).length
    ∧ assoc_get (log_signals_update signal_log symbol_name
          signals).by_symbol symbol_name
        = some
          { total := ((assoc_get signal_log.by_symbol
                symbol_name).getD ⟨0, 0, 0⟩).total + signals.length
            bullish := ((assoc_get signal_log.by_symbol
                symbol_name).getD ⟨0, 0, 0⟩).bullish
              + (signals.filter (fun s => s.type = "Bullish")).length
            bearish := ((assoc_get signal_log.by_symbol
                symbol_name).getD ⟨0, 0, 0⟩).bearish
              + (signals.filter (fun s => s.type = "Bearish")).length }
    ∧ assoc_get (apply_log_calls
          [("IBIT", [{ type := "Bullish" }, { type := "Bullish" },
             { type := "Bearish" }]),
           ("IBIT", [{ type := "Bullish" }])]
          emptySignalLog).by_symbol "IBIT"
        = some { total := 4, bullish := 3, bearish := 1 } := by
  exact ⟨rfl, rfl, rfl, assoc_get_update _ _ _ _ _, by decide⟩

theorem rank_le_trans (a b c : String × SymCounts)
    (h1 : (decide (b.2.total ≤ a.2.total)) = true)
    (h2 : (decide (c.2.total ≤ b.2.total)) = true) :
    (decide (c.2.total ≤ a.2.total)) = true := by
  simp only [decide_eq_true_eq] at h1 h2 ⊢
  omega

theorem rank_le_total (a b : String × SymCounts) :
    ((decide (b.2.total ≤ a.2.total)) || (decide (a.2.total ≤ b.2.total)))
      = true := by
  simp only [Bool.or_eq_true, decide_eq_true_eq]
  exact Nat.le_total _ _

theorem rank_by_total_filter_eq (l : List (String × SymCounts)) (k : ℕ) :
    (rank_by_total l).filter (fun p => p.2.total = k)
      = l.filter (fun p => p.2.total = k) := by
  have hA_sub : List.Sublist (l.filter (fun p => p.2.total = k)) l :=
    List.filter_sublist l
  have hA_mem : ∀ a ∈ l.filter (fun p => p.2.total = k), a.2.total = k := by
    intro a ha
    simpa using List.of_mem_filter ha
  have hA_pairwise : (l.filter (fun p => p.2.total = k)).Pairwise
      (fun a b => (decide (b.2.total ≤ a.2.total)) = true) := by
    apply List.pairwise_of_forall_mem_list
    intro a ha b hb
    simp only [decide_eq_true_eq]
    rw [hA_mem a ha, hA_mem b hb]
  have hsub : List.Sublist (l.filter (fun p => p.2.total = k))
      (l.mergeSort (fun a b => decide (b.2.total ≤ a.2.total))) :=
    List.sublist_mergeSort
      (fun a b c => rank_le_trans a b c)
      (fun a b => rank_le_total a b)
      hA_pairwise hA_sub
  have hsub2 : List.Sublist (l.filter (fun p => p.2.total = k))
      ((l.mergeSort (fun a b => decide (b.2.total ≤ a.2.total))).filter
        (fun p => p.2.total = k)) := by
    have := hsub.filter (fun p => p.2.total = k)
    rwa [List.filter_eq_self.mpr (by
      intro a ha
      simpa using hA_mem a ha)] at this
  have hperm : List.Perm
      ((l.mergeSort (fun a b => decide (b.2.total ≤ a.2.total))).filter
        (fun p => p.2.total = k))
      (l.filter (fun p => p.2.total = k)) :=
    (List.mergeSort_perm l _).filter _
  exact ((hsub2.eq_of_length hperm.length_eq.symm).symm)

/-- C7: the ranking report's `top_symbols` has length
`min 10 (number of by_symbol entries)`, is sorted descending by the
symbol's total signal count, and the underlying sort is stable: entries
with equal totals keep their prior relative order. -/
theorem C7_top_symbols_ranking (signal_log : SignalLog) :
    (top_symbols signal_log).length = min 10 signal_log.by_symbol.length
    ∧ (top_symbols signal_log).Pairwise
        (fun a b => b.2.total ≤ a.2.total)
    ∧ (∀ k : ℕ, (rank_by_total signal_log.by_symbol).filter
          (fun p => p.2.total = k)
        = signal_log.by_symbol.filter (fun p => p.2.total = k))
    ∧ top_symbols signal_log = (rank_by_total signal_log.by_symbol).take 10 := by
  refine ⟨?_, ?_, fun k => rank_by_total_filter_eq _ k, rfl⟩
  · unfold top_symbols rank_by_total
    rw [List.length_take, List.length_mergeSort]
  · have hsorted : (rank_by_total signal_log.by_symbol).Pairwise
        (fun a b => (decide (b.2.total ≤ a.2.total)) = true) :=
      List.sorted_mergeSort
        (fun a b c => rank_le_trans a b c)
        (fun a b => rank_le_total a b)
        signal_log.by_symbol
    have htake : List.Sublist (top_symbols signal_log)
        (rank_by_total signal_log.by_symbol) :=
      List.take_sublist 10 _
    exact (hsorted.sublist htake).imp (fun h => by simpa using h)

theorem keys_bump_symbol (l : List (String × SymCounts)) (s : String)
    (t b be : ℕ) :
    (bump_symbol l s t b be).map (fun p => p.1) = l.map (fun p => p.1) := by
  unfold bump_symbol
  rw [List.map_map]
  apply List.map_congr_left
  intro q hq
  by_cases hqs : q.1 = s <;> simp [hqs]

theorem any_ensure_symbol (l : List (String × SymCounts)) (s : String) :
    (ensure_symbol l s).any (fun p => p.1 = s) = true := by
  unfold ensure_symbol
  split
  · next h => exact h
  · simp [List.any_append]

theorem nodup_keys_ensure (l : List (String × SymCounts)) (s : String)
    (h : (l.map (fun p => p.1)).Nodup) :
    ((ensure_symbol l s).map (fun p => p.1)).Nodup := by
  unfold ensure_symbol
  split
  · exact h
  · next hany =>
    rw [List.map_append]
    rw [List.nodup_append]
    refine ⟨h, List.nodup_singleton s, ?_⟩
    intro a ha hb
    rw [List.map_singleton, List.mem_singleton] at hb
    subst hb
    obtain ⟨q, hq, hq2⟩ := List.mem_map.mp ha
    exact hany (List.any_eq_true.mpr ⟨q, hq, by simpa using hq2⟩)

theorem sum_bump_symbol (l : List (String × SymCounts)) (s : String)
    (t b be : ℕ) (hmem : l.any (fun p => p.1 = s) = true)
    (hnd : (l.map (fun p => p.1)).Nodup) :
    ((bump_symbol l s t b be).map (fun p => p.2.total)).sum
      = (l.map (fun p => p.2.total)).sum + t := by
  induction l with
  | nil => simp at hmem
  | cons p ps ih =>
    simp only [List.map_cons, List.nodup_cons] at hnd
    obtain ⟨hps, hnd2⟩ := hnd
    by_cases hp : p.1 = s
    · have hnomem : ps.any (fun q => q.1 = s) = false := by
        rw [List.any_eq_false]
        intro q hq
        simp only [decide_eq_true_eq]
        intro hq2
        exact hps (List.mem_map.mpr ⟨q, hq, by rw [hq2, hp]⟩)
      simp only [bump_symbol, List.map_cons, if_pos hp]
      have hrest := bump_symbol_of_not_mem ps s t b be hnomem
      unfold bump_symbol at hrest
      rw [hrest]
      simp only [List.sum_cons]
      omega
    · have hmem2 : ps.any (fun q => q.1 = s) = true := by
        simp only [List.any_cons, Bool.or_eq_true] at hmem
        rcases hmem with h1 | h2
        · exact absurd (by simpa using h1) hp
        · exact h2
      simp only [bump_symbol, List.map_cons, if_neg hp]
      have := ih hmem2 hnd2
      unfold bump_symbol at this
      simp only [List.sum_cons]
      rw [this]
      omega

theorem sum_ensure_symbol (l : List (String × SymCounts)) (s : String) :
    ((ensure_symbol l s).map (fun p => p.2.total)).sum
      = (l.map (fun p => p.2.total)).sum := by
  unfold ensure_symbol
  split
  · rfl
  · simp

theorem log_signals_update_stats (signal_log : SignalLog) (s : String)
    (sigs : List Signal)
    (hnd : (signal_log.by_symbol.map (fun p => p.1)).Nodup) :
    ((log_signals_update signal_log s sigs).by_symbol.map
        (fun p => p.1)).Nodup
    ∧ (log_signals_update signal_log s sigs).total_signals
        = signal_log.total_signals + sigs.length
    ∧ ((log_signals_update signal_log s sigs).by_symbol.map
          (fun p => p.2.total)).sum
        = (signal_log.by_symbol.map (fun p => p.2.total)).sum + sigs.length
    ∧ (log_signals_update signal_log s sigs).by_type_bullish
        = signal_log.by_type_bullish
          + (sigs.filter (fun x => x.type = "Bullish")).length
    ∧ (log_signals_update signal_log s sigs).by_type_bearish
        = signal_log.by_type_bearish
          + (sigs.filter (fun x => x.type = "Bearish")).length := by
  refine ⟨?_, rfl, ?_, rfl, rfl⟩
  · show ((bump_symbol (ensure_symbol signal_log.by_symbol s) s _ _ _).map
      (fun p => p.1)).Nodup
    rw [keys_bump_symbol]
    exact nodup_keys_ensure _ _ hnd
  · show ((bump_symbol (ensure_symbol signal_log.by_symbol s) s
        sigs.length _ _).map (fun p => p.2.total)).sum = _
    rw [sum_bump_symbol _ s _ _ _ (any_ensure_symbol _ s)
      (nodup_keys_ensure _ s hnd), sum_ensure_symbol]

theorem apply_log_calls_stats (calls : List (String × List Signal)) :
    ∀ signal_log : SignalLog,
      (signal_log.by_symbol.map (fun p => p.1)).Nodup →
      ((apply_log_calls calls signal_log).by_symbol.map
          (fun p => p.1)).Nodup
      ∧ (apply_log_calls calls signal_log).total_signals
          = signal_log.total_signals + (calls.map (fun c => c.2.length)).sum
      ∧ ((apply_log_calls calls signal_log).by_symbol.map
            (fun p => p.2.total)).sum
          = (signal_log.by_symbol.map (fun p => p.2.total)).sum
            + (calls.map (fun c => c.2.length)).sum
      ∧ (apply_log_calls calls signal_log).by_type_bullish
          = signal_log.by_type_bullish
            + (calls.map (fun c =>
                (c.2.filter (fun x => x.type = "Bullish")).length)).sum
      ∧ (apply_log_calls calls signal_log).by_type_bearish
          = signal_log.by_type_bearish
            + (calls.map (fun c =>
                (c.2.filter (fun x => x.type = "Bearish")).length)).sum := by
  induction calls with
  | nil =>
    intro signal_log h
    exact ⟨h, by simp [apply_log_calls], by simp [apply_log_calls],
      by simp [apply_log_calls], by simp [apply_log_calls]⟩
  | cons c cs ih =>
    intro signal_log h
    have hstep := log_signals_update_stats signal_log c.1 c.2 h
    have hrec := ih (log_signals_update signal_log c.1 c.2) hstep.1
    have happ : apply_log_calls (c :: cs) signal_log
        = apply_log_calls cs (log_signals_update signal_log c.1 c.2) := rfl
    rw [happ]
    refine ⟨hrec.1, ?_, ?_, ?_, ?_⟩
    · rw [hrec.2.1, hstep.2.1]
      simp only [List.map_cons, List.sum_cons]
      omega
    · rw [hrec.2.2.1, hstep.2.2.1]
      simp only [List.map_cons, List.sum_cons]
      omega
    · rw [hrec.2.2.2.1, hstep.2.2.2.1]
      simp only [List.map_cons, List.sum_cons]
      omega
    · rw [hrec.2.2.2.2, hstep.2.2.2.2]
      simp only [List.map_cons, List.sum_cons]
      omega

theorem filter_type_le (sigs : List Signal) :
    (sigs.filter (fun x => x.type = "Bullish")).length
        + (sigs.filter (fun x => x.type = "Bearish")).length ≤ sigs.length
    ∧ ((sigs.filter (fun x => x.type = "Bullish")).length
          + (sigs.filter (fun x => x.type = "Bearish")).length = sigs.length
        ↔ ∀ x ∈ sigs, x.type = "Bullish" ∨ x.type = "Bearish") := by
  induction sigs with
  | nil => simp
  | cons x xs ih =>
    obtain ⟨ihle, ihiff⟩ := ih
    by_cases hb : x.type = "Bullish"
    · have hbe : (xs.filter (fun y => y.type = "Bearish")).length
          = ((x :: xs).filter (fun y => y.type = "Bearish")).length := by
        rw [List.filter_cons, if_neg]
        simp only [decide_eq_true_eq]
        rw [hb]
        intro hcon
        exact absurd hcon (by decide)
      have hbu : ((x :: xs).filter (fun y => y.type = "Bullish")).length
          = (xs.filter (fun y => y.type = "Bullish")).length + 1 := by
        rw [List.filter_cons, if_pos (by simpa using hb)]
        simp [Nat.add_comm]
      constructor
      · rw [hbu, ← hbe, List.length_cons]
        omega
      · rw [hbu, ← hbe, List.length_cons]
        simp only [List.mem_cons]
        constructor
        · intro h y hy
          rcases hy with rfl | hy
          · exact Or.inl hb
          · exact (ihiff.mp (by omega)) y hy
        · intro h
          have := ihiff.mpr (fun y hy => h y (Or.inr hy))
          omega
    · by_cases hbe : x.type = "Bearish"
      · have hbu : ((x :: xs).filter (fun y => y.type = "Bullish")).length
            = (xs.filter (fun y => y.type = "Bullish")).length := by
          rw [List.filter_cons, if_neg (by simpa using hb)]
        have hbe2 : ((x :: xs).filter (fun y => y.type = "Bearish")).length
            = (xs.filter (fun y => y.type = "Bearish")).length + 1 := by
          rw [List.filter_cons, if_pos (by simpa using hbe)]
          simp [Nat.add_comm]
        constructor
        · rw [hbu, hbe2, List.length_cons]
          omega
        · rw [hbu, hbe2, List.length_cons]
          simp only [List.mem_cons]
          constructor
          · intro h y hy
            rcases hy with rfl | hy
            · exact Or.inr hbe
            · exact (ihiff.mp (by omega)) y hy
          · intro h
            have := ihiff.mpr (fun y hy => h y (Or.inr hy))
            omega
      · have hbu : ((x :: xs).filter (fun y => y.type = "Bullish")).length
            = (xs.filter (fun y => y.type = "Bullish")).length := by
          rw [List.filter_cons, if_neg (by simpa using hb)]
        have hbe2 : ((x :: xs).filter (fun y => y.type = "Bearish")).length
            = (xs.filter (fun y => y.type = "Bearish")).length := by
          rw [List.filter_cons, if_neg (by simpa using hbe)]
        constructor
        · rw [hbu, hbe2, List.length_cons]
          omega
        · rw [hbu, hbe2, List.length_cons]
          simp only [List.mem_cons]
          constructor
          · intro h
            omega
          · intro h
            exact absurd (h x (Or.inl rfl)) (by
              rintro (h1 | h2)
              · exact hb h1
              · exact hbe h2)

theorem sum_filter_type_le (calls : List (String × List Signal)) :
    (calls.map (fun c =>
          (c.2.filter (fun x => x.type = "Bullish")).length)).sum
        + (calls.map (fun c =>
            (c.2.filter (fun x => x.type = "Bearish")).length)).sum
      ≤ (calls.map (fun c => c.2.length)).sum
    ∧ ((calls.map (fun c =>
            (c.2.filter (fun x => x.type = "Bullish")).length)).sum
          + (calls.map (fun c =>
              (c.2.filter (fun x => x.type = "Bearish")).length)).sum
        = (calls.map (fun c => c.2.length)).sum
        ↔ ∀ c ∈ calls, ∀ x ∈ c.2,
            x.type = "Bullish" ∨ x.type = "Bearish") := by
  induction calls with
  | nil => simp
  | cons c cs ih =>
    obtain ⟨ihle, ihiff⟩ := ih
    obtain ⟨hle, hiff⟩ := filter_type_le c.2
    simp only [List.map_cons, List.sum_cons, List.mem_cons]
    constructor
    · omega
    · constructor
      · intro h y hy
        rcases hy with rfl | hy
        · exact hiff.mp (by omega)
        · exact (ihiff.mp (by omega)) y hy
      · intro h
        have h1 := hiff.mpr (h c (Or.inl rfl))
        have h2 := ihiff.mpr (fun y hy => h y (Or.inr hy))
        omega

/-- C10: starting from the empty SignalLog, after any finite sequence of
`log_signals` ingestions, `total_signals` equals the sum over all symbols
of `by_symbol[s].total`, and `by_type[Bullish] + by_type[Bearish]` is at
most `total_signals`, with equality exactly when every logged signal's
type is Bullish or Bearish. -/
theorem C10_signal_log_invariant (calls : List (String × List Signal)) :
    (apply_log_calls calls emptySignalLog).total_signals
        = ((apply_log_calls calls emptySignalLog).by_symbol.map
            (fun p => p.2.total)).sum
    ∧ (apply_log_calls calls emptySignalLog).by_type_bullish
          + (apply_log_calls calls emptySignalLog).by_type_bearish
        ≤ (apply_log_calls calls emptySignalLog).total_signals
    ∧ ((apply_log_calls calls emptySignalLog).by_type_bullish
            + (apply_log_calls calls emptySignalLog).by_type_bearish
          = (apply_log_calls calls emptySignalLog).total_signals
        ↔ ∀ c ∈ calls, ∀ x ∈ c.2,
            x.type = "Bullish" ∨ x.type = "Bearish") := by
  obtain ⟨-, h1, h2, h3, h4⟩ :=
    apply_log_calls_stats calls emptySignalLog (by simp [emptySignalLog])
  rw [show emptySignalLog.total_signals = 0 from rfl] at h1
  rw [show emptySignalLog.by_symbol = [] from rfl] at h2
  rw [show emptySignalLog.by_type_bullish = 0 from rfl] at h3
  rw [show emptySignalLog.by_type_bearish = 0 from rfl] at h4
  simp only [List.map_nil, List.sum_nil, Nat.zero_add] at h1 h2 h3 h4
  obtain ⟨hle, hiff⟩ := sum_filter_type_le calls
  refine ⟨by rw [h1, h2], by rw [h1, h3, h4]; omega, ?_⟩
  rw [h1, h3, h4]
  constructor
  · intro h
    exact hiff.mp (by omega)
  · intro h
    have := hiff.mpr h
    omega
